import Mathlib

/-!
Verification development for the clang dependency-scanning tool
(`clang/lib/Tooling/DependencyScanning/DependencyScanningTool.cpp`).

The embedding models:
 * the command-line rewriting helper `makeTUCommandLineWithoutPaths`;
 * the `IncludeTreePPConsumer` (include-tree builder): its state, its
   event handlers (`enteredInclude`, `exitedInclude`,
   `handleHasIncludeCheck`), its CAS-object resolution helpers
   (`getObjectForFile`, `getObjectForFileNonCached`, `getObjectForBuffer`,
   `addToFileList`), its `finalize` pass and `getIncludeTree`;
 * the `FullDependencyConsumer::getFullDependencies` finalization;
 * the `MakeDependencyPrinterConsumer` used by `getDependencyFile`.

Modelling conventions:
 * A content-addressed reference (`cas::ObjectRef`) to a blob is modelled
   by the blob's bytes themselves (a `String`); equal content gives equal
   reference by construction, matching content addressing.  A
   `cas::IncludeFile` node is a (filename, content) pair and its ref is
   the pair itself; an `cas::IncludeTree` node is a structural value.
 * Fallible operations (`llvm::Expected` / `llvm::ErrorOr`) are modelled
   with `Except String`; errors are opaque strings.
 * C `assert` failures (and the undefined behaviour of `SmallVector::back`
   on an empty vector, which is itself an assertion in LLVM) are modelled
   by the handlers returning `none`: a hard, non-recoverable stop that is
   distinct from the recoverable `errorToReport` channel.  Assertions are
   modelled as enabled.
 * The `ConsumerState.storeTrace` field is ghost instrumentation: it
   records the byte strings passed to `ObjectStore::storeFromString`, so
   that "content is stored/addressed at most once" is observable in the
   pure model.  No handler reads it.
-/

namespace DepScan

/-! ## StringRef operations

`llvm::StringRef` is modelled through the character list underlying a
Lean `String`.  `startswith`/`consume_front` become list-prefix tests. -/

/-- Model of `StringRef::startswith`. -/
def strStartsWith (s p : String) : Bool := p.data.isPrefixOf s.data

/-- Model of dropping the first `n` characters of a `StringRef`
(the effect of a successful `consume_front` of an `n`-char literal). -/
def strDrop (s : String) (n : Nat) : String := ⟨s.data.drop n⟩

/-! ## Command-line rewriting (`makeTUCommandLineWithoutPaths`) -/

/-- The predicate of the `llvm::erase_if` call in
`makeTUCommandLineWithoutPaths`: `Arg.consume_front("-fmodules-")`
followed by the four suffix tests, else the `-fbuild-session-file=`
test. -/
def isRemovedArg (arg : String) : Bool :=
  if strStartsWith arg "-fmodules-" then
    let rest := strDrop arg "-fmodules-".length
    strStartsWith rest "cache-path=" ||
    strStartsWith rest "prune-interval=" ||
    strStartsWith rest "prune-after=" ||
    rest == "validate-once-per-build-session"
  else
    strStartsWith arg "-fbuild-session-file="

/-- Model of `makeTUCommandLineWithoutPaths`: copy the original
arguments, push the two `-fno-implicit-*` flags, then `erase_if` the
caching-related flags (`erase_if` keeps the relative order of the
surviving elements, so it is `List.filter` of the negated predicate). -/
def makeTUCommandLineWithoutPaths (originalCommandLine : List String) : List String :=
  let args := originalCommandLine ++ ["-fno-implicit-modules", "-fno-implicit-module-maps"]
  args.filter (fun a => !isRemovedArg a)

/-- The spec's description of which arguments are removed, written
directly from the claim's words (an argument matching
`-fmodules-cache-path=...`, `-fmodules-prune-interval=...`,
`-fmodules-prune-after=...`, `-fmodules-validate-once-per-build-session`
or `-fbuild-session-file=...`), to be compared with `isRemovedArg`. -/
def specRemovedArg (arg : String) : Bool :=
  strStartsWith arg "-fmodules-cache-path=" ||
  strStartsWith arg "-fmodules-prune-interval=" ||
  strStartsWith arg "-fmodules-prune-after=" ||
  arg == "-fmodules-validate-once-per-build-session" ||
  strStartsWith arg "-fbuild-session-file="

/-! ## CAS objects for the include-tree builder -/

/-- A `cas::IncludeFile` node: {path spelling, content bytes}.  Its
content-addressed ref is the node itself (equal fields, equal ref). -/
structure FileNodeObj where
  filename : String
  content : String
deriving DecidableEq, Repr

/-- A `cas::IncludeTree` node, content-addressed by its fields:
characteristic kind, the file node's ref, the ordered (child ref, byte
offset) list, and the ordered `__has_include` probe-result bits. -/
inductive IncludeTree where
  | node (fileCharacteristic : Nat) (file : FileNodeObj)
      (includes : List (IncludeTree × Nat)) (hasIncludeChecks : List Bool)

/-- A `cas::IncludeTreeRoot`: main-file tree, file manifest
(`cas::IncludeFileList`: file node refs with declared sizes), optional
PCH content ref. -/
structure IncludeTreeRoot where
  mainFileTree : IncludeTree
  fileList : List (FileNodeObj × Nat)
  pch : Option String

/-! ## Front-end environment -/

/-- A `clang::FileEntry`: path as spelled, real path (empty when none
was recorded), size, and the stable unique id (`getUID`). -/
structure FileEntryRec where
  name : String
  realPathName : String
  size : Nat
  uid : Nat
deriving DecidableEq, Repr

/-- The part of `SrcMgr::FileInfo` the consumer reads: characteristic
kind, the original `FileEntry` of its content cache (`none` for a
non-file buffer), its name, and the loaded buffer bytes. -/
structure FileInfoRec where
  fileCharacteristic : Nat
  origEntry : Option FileEntryRec
  name : String
  buffer : String

/-- The external collaborators of the consumer, fixed for one scan:
the predefines `FileID`, the `SourceManager`'s `FileID` table, the
`FileManager`'s content cache (`getObjectRefForFileContent`, fallible),
the path canonicalization `makeAbsolutePath` + `remove_dots`, and
`FileManager::getFile`. -/
structure PPEnv where
  predefinesFID : Nat
  fileInfo : Nat → FileInfoRec
  contentFor : String → Except String String
  canon : String → String
  getFile : String → Except String FileEntryRec

/-! ## Consumer state -/

/-- One in-progress frame of `IncludeTreePPConsumer::FilePPState`. -/
structure FilePPState where
  fileCharacteristic : Nat
  file : FileNodeObj
  includes : List (IncludeTree × Nat)
  hasIncludeChecks : List Bool

/-- The mutable fields of `IncludeTreePPConsumer`.  The include stack is
held top-first (head = `SmallVector::back`).  `objectForFile` is the
`DenseMap<const FileEntry *, Optional<ObjectRef>>`, keyed by the entry's
UID (distinct `FileEntry` objects have distinct UIDs); an entry mapped
to `none` mirrors a default-constructed `Optional` left by a failed
resolution.  `storeTrace` is ghost instrumentation listing the buffers
passed to `ObjectStore::storeFromString`. -/
structure ConsumerState where
  pchRef : Option String
  seenIncludeFiles : List Nat
  includedFiles : List (FileNodeObj × Nat)
  predefinesBufferRef : Option FileNodeObj
  includeStack : List FilePPState
  objectForFile : List (Nat × Option FileNodeObj)
  errorToReport : Option String
  storeTrace : List String

/-- The freshly constructed consumer. -/
def initConsumerState : ConsumerState :=
  { pchRef := none
    seenIncludeFiles := []
    includedFiles := []
    predefinesBufferRef := none
    includeStack := []
    objectForFile := []
    errorToReport := none
    storeTrace := [] }

/-- Lookup in the `objectForFile` map. -/
def lookupCache : List (Nat × Option FileNodeObj) → Nat → Option (Option FileNodeObj)
  | [], _ => none
  | (k, v) :: rest, uid => if k = uid then some v else lookupCache rest uid

/-- Store into the `objectForFile` map (overwriting an existing key). -/
def setCache : List (Nat × Option FileNodeObj) → Nat → Option FileNodeObj →
    List (Nat × Option FileNodeObj)
  | [], uid, v => [(uid, v)]
  | (k, w) :: rest, uid, v =>
    if k = uid then (uid, v) :: rest else (k, w) :: setCache rest uid v

/-- Insertion into the `SeenIncludeFiles` bit vector. -/
def markSeen (seen : List Nat) (uid : Nat) : List Nat :=
  if uid ∈ seen then seen else uid :: seen

/-! ## CAS resolution helpers -/

/-- `IncludeTreePPConsumer::getObjectForBuffer`: store the loaded buffer
in the object store and wrap it in an `IncludeFile` node named after the
buffer.  The store insertion is recorded in the ghost trace. -/
def getObjectForBuffer (s : ConsumerState) (fi : FileInfoRec) :
    FileNodeObj × ConsumerState :=
  (⟨fi.name, fi.buffer⟩, { s with storeTrace := s.storeTrace ++ [fi.buffer] })

/-- `IncludeTreePPConsumer::addToFileList`: resolve the file's content
ref through the `FileManager`; if a recorded real path differs from the
canonical absolute spelling of the file's name, append a file node for
the real path first; always append (and return) the node for the name as
spelled.  Sizes are truncated to `IncludeFileList::FileSizeTy`
(`uint32_t`). -/
def addToFileList (env : PPEnv) (s : ConsumerState) (fe : FileEntryRec) :
    Except String FileNodeObj × ConsumerState :=
  match env.contentFor fe.name with
  | .error e => (.error e, s)
  | .ok contents =>
    let pushFile := fun (st : ConsumerState) (fn : String) =>
      let nodeObj : FileNodeObj := ⟨fn, contents⟩
      (nodeObj,
       { st with includedFiles :=
          st.includedFiles ++ [(nodeObj, fe.size % 4294967296)] })
    let otherPath := fe.realPathName
    let s₁ :=
      if otherPath ≠ "" ∧ otherPath ≠ env.canon fe.name then
        (pushFile s otherPath).2
      else s
    let r := pushFile s₁ fe.name
    (.ok r.1, r.2)

/-- `IncludeTreePPConsumer::getObjectForFileNonCached`: mark the file's
UID in `SeenIncludeFiles`, then add it to the file list. -/
def getObjectForFileNonCached (env : PPEnv) (s : ConsumerState)
    (fe : FileEntryRec) : Except String FileNodeObj × ConsumerState :=
  addToFileList env { s with seenIncludeFiles := markSeen s.seenIncludeFiles fe.uid } fe

/-- `IncludeTreePPConsumer::getObjectForFile`.  The predefines buffer is
memoized in `predefinesBufferRef`; any other `FileID` must have an
original `FileEntry` (asserted: `none` result) and goes through the
per-file-identity cache `objectForFile`. -/
def getObjectForFile (env : PPEnv) (s : ConsumerState) (fid : Nat) :
    Option (Except String FileNodeObj × ConsumerState) :=
  let fi := env.fileInfo fid
  if fid = env.predefinesFID then
    match s.predefinesBufferRef with
    | some r => some (.ok r, s)
    | none =>
      let rs := getObjectForBuffer s fi
      some (.ok rs.1, { rs.2 with predefinesBufferRef := some rs.1 })
  else
    match fi.origEntry with
    | none => none
    | some fe =>
      match lookupCache s.objectForFile fe.uid with
      | some (some r) => some (.ok r, s)
      | _ =>
        match getObjectForFileNonCached env s fe with
        | (.error e, s') =>
          some (.error e, { s' with objectForFile := setCache s'.objectForFile fe.uid none })
        | (.ok r, s') =>
          some (.ok r, { s' with objectForFile := setCache s'.objectForFile fe.uid (some r) })

/-- `IncludeTreePPConsumer::getCASTreeForFileIncludes`: finalize a frame
into a content-addressed `IncludeTree` node. -/
def getCASTreeForFileIncludes (st : FilePPState) : IncludeTree :=
  .node st.fileCharacteristic st.file st.includes st.hasIncludeChecks

/-! ## Event handlers -/

/-- `IncludeTreePPConsumer::enteredInclude`: no-op once an error is
recorded; otherwise resolve the entered file (a failure is recorded via
`check` and handling stops) and push a fresh frame for it. -/
def enteredInclude (env : PPEnv) (s : ConsumerState) (fid : Nat) :
    Option ConsumerState :=
  if s.errorToReport.isSome then some s
  else
    match getObjectForFile env s fid with
    | none => none
    | some (.error e, s') => some { s' with errorToReport := some e }
    | some (.ok fileRef, s') =>
      let fi := env.fileInfo fid
      some { s' with includeStack :=
        ⟨fi.fileCharacteristic, fileRef, [], []⟩ :: s'.includeStack }

/-- `IncludeTreePPConsumer::exitedInclude`: no-op once an error is
recorded; assert that the exited file resolves to the top frame's file;
pop that frame and finalize it into an `IncludeTree` node; assert that
the including file resolves to the new top frame's file; append
(node ref, byte offset of the inclusion) to the new top frame.
`offset` stands for `SM.getDecomposedExpansionLoc(ExitLoc).second`. -/
def exitedInclude (env : PPEnv) (s : ConsumerState)
    (includedBy incl : Nat) (offset : Nat) : Option ConsumerState :=
  if s.errorToReport.isSome then some s
  else
    match getObjectForFile env s incl with
    | none => none
    | some (.error _, _) => none
    | some (.ok childRef, s₁) =>
      match s₁.includeStack with
      | [] => none
      | child :: rest =>
        if childRef = child.file then
          let tree := getCASTreeForFileIncludes child
          let s₂ := { s₁ with includeStack := rest }
          match getObjectForFile env s₂ includedBy with
          | none => none
          | some (.error _, _) => none
          | some (.ok parentRef, s₃) =>
            match s₃.includeStack with
            | [] => none
            | parent :: prest =>
              if parentRef = parent.file then
                some { s₃ with includeStack :=
                  { parent with includes := parent.includes ++ [(tree, offset)] } :: prest }
              else none
        else none

/-- `IncludeTreePPConsumer::handleHasIncludeCheck`: no-op once an error
is recorded; otherwise append the probe result to the top frame's bit
sequence (asserted to exist). -/
def handleHasIncludeCheck (s : ConsumerState) (result : Bool) :
    Option ConsumerState :=
  if s.errorToReport.isSome then some s
  else
    match s.includeStack with
    | [] => none
    | top :: rest =>
      some { s with includeStack :=
        { top with hasIncludeChecks := top.hasIncludeChecks ++ [result] } :: rest }

/-- The preprocessor callbacks driven by the front end, in order. -/
inductive PPEvent where
  | entered (fid : Nat)
  | exited (includedBy incl : Nat) (offset : Nat)
  | hasIncludeCheck (result : Bool)

/-- Dispatch one event to its handler. -/
def processEvent (env : PPEnv) (s : ConsumerState) : PPEvent → Option ConsumerState
  | .entered fid => enteredInclude env s fid
  | .exited includedBy incl offset => exitedInclude env s includedBy incl offset
  | .hasIncludeCheck result => handleHasIncludeCheck s result

/-- Run a chronological event sequence. -/
def runEvents (env : PPEnv) (s : ConsumerState) : List PPEvent → Option ConsumerState
  | [] => some s
  | e :: es =>
    match processEvent env s e with
    | none => none
    | some s' => runEvents env s' es

/-- `IncludeTreePPConsumer::getIncludeTree`: a recorded failure is
returned instead of a result; otherwise exactly one frame (the main
file) must remain (asserted), and it is finalized and paired with the
manifest and the optional PCH ref. -/
def getIncludeTree (s : ConsumerState) : Option (Except String IncludeTreeRoot) :=
  match s.errorToReport with
  | some e => some (.error e)
  | none =>
    match s.includeStack with
    | [main] =>
      some (.ok ⟨getCASTreeForFileIncludes main, s.includedFiles, s.pchRef⟩)
    | _ => none

/-! ## Finalization sweep (`IncludeTreePPConsumer::finalize`) -/

/-- The fields of the `CompilerInstance` that `finalize` reads:
`LangOpts.NoSanitizeFiles`, `HeaderSearchOpts.Sysroot`,
`PreprocessorOpts.ImplicitPCHInclude`, and the front end's
`Preprocessor::getIncludedFiles()` in its (arbitrary) enumeration
order. -/
structure CompilerInstanceRec where
  noSanitizeFiles : List String
  sysroot : String
  implicitPCHInclude : String
  includedFiles : List FileEntryRec

/-- The `addFile` lambda inside `finalize`: look the path up with
`FileManager::getFile` (a failure is recorded, unless ignored) and add
the entry to the file list (a failure is recorded).  Returns whether
processing may continue. -/
def finalizeAddFile (env : PPEnv) (s : ConsumerState) (filePath : String)
    (ignoreFileError : Bool) : Bool × ConsumerState :=
  match env.getFile filePath with
  | .error e =>
    if ignoreFileError then (true, s)
    else (false, { s with errorToReport := some e })
  | .ok fe =>
    match addToFileList env s fe with
    | (.error e, s') => (false, { s' with errorToReport := some e })
    | (.ok _, s') => (true, s')

/-- The loop over `LangOpts.NoSanitizeFiles` (early return on the first
failure). -/
def addSanitizeFiles (env : PPEnv) : List String → ConsumerState → Bool × ConsumerState
  | [], s => (true, s)
  | p :: ps, s =>
    match finalizeAddFile env s p false with
    | (false, s') => (false, s')
    | (true, s') => addSanitizeFiles env ps s'

/-- Ordered insertion by UID (ascending). -/
def insertByUID (fe : FileEntryRec) : List FileEntryRec → List FileEntryRec
  | [] => [fe]
  | x :: xs => if fe.uid ≤ x.uid then fe :: x :: xs else x :: insertByUID fe xs

/-- The `llvm::sort` call of `finalize` with the comparator
`LHS->getUID() < RHS->getUID()`: a sort into ascending UID order
(insertion sort; any correct sort of a strict comparator yields a
permutation that is non-decreasing on UIDs). -/
def sortByUID : List FileEntryRec → List FileEntryRec
  | [] => []
  | x :: xs => insertByUID x (sortByUID xs)

/-- The loop over the sorted not-seen includes: add each to the file
list, returning early on the first failure. -/
def pchSweep (env : PPEnv) : List FileEntryRec → ConsumerState → Bool × ConsumerState
  | [], s => (true, s)
  | fe :: fes, s =>
    match addToFileList env s fe with
    | (.error e, s') => (false, { s' with errorToReport := some e })
    | (.ok _, s') => pchSweep env fes s'

/-- The tail of `IncludeTreePPConsumer::finalize` (from the
`ImplicitPCHInclude` early-return on): when an implicit PCH is
configured, collect the recorded included files whose UID was never
marked seen, sort them by UID, add each to the file list, and record
the PCH content ref. -/
def finalizePCH (env : PPEnv) (implicitPCHInclude : String)
    (includedFiles : List FileEntryRec) (s₂ : ConsumerState) : ConsumerState :=
  if implicitPCHInclude = "" then s₂
  else
    let notSeen := includedFiles.filter
      (fun fe => !(s₂.seenIncludeFiles.contains fe.uid))
    match pchSweep env (sortByUID notSeen) s₂ with
    | (false, s₃) => s₃
    | (true, s₃) =>
      match env.contentFor implicitPCHInclude with
      | .error e => { s₃ with errorToReport := some e }
      | .ok c => { s₃ with pchRef := some c }

/-- `IncludeTreePPConsumer::finalize`: add the no-sanitize files; add
`<sysroot>/SDKSettings.json` (ignoring a lookup failure) when a sysroot
is set; then run the PCH sweep. -/
def finalize (env : PPEnv) (ci : CompilerInstanceRec) (s : ConsumerState) :
    ConsumerState :=
  match addSanitizeFiles env ci.noSanitizeFiles s with
  | (false, s₁) => s₁
  | (true, s₁) =>
    let s₂ :=
      if ci.sysroot = "" then s₁
      else (finalizeAddFile env s₁ (ci.sysroot ++ "/SDKSettings.json") true).2
    finalizePCH env ci.implicitPCHInclude ci.includedFiles s₂

/-- The manifest entries one `addToFileList` call appends when the
content resolves to `c`: the real-path alias node first when the
recorded real path is nonempty and differs from the canonical absolute
spelling of the name, then always the node for the name as spelled —
all sharing the one content ref `c`. -/
def addToFileListEntries (env : PPEnv) (fe : FileEntryRec) (c : String) :
    List (FileNodeObj × Nat) :=
  if fe.realPathName ≠ "" ∧ fe.realPathName ≠ env.canon fe.name then
    [(⟨fe.realPathName, c⟩, fe.size % 4294967296), (⟨fe.name, c⟩, fe.size % 4294967296)]
  else
    [(⟨fe.name, c⟩, fe.size % 4294967296)]

/-! ## Full-dependency consumer (`FullDependencyConsumer`) -/

/-- A `ModuleID`: module name plus context hash. -/
structure ModuleID where
  moduleName : String
  contextHash : String
deriving DecidableEq, Repr

/-- The fields of `ModuleDeps` this file reads. -/
structure ModuleDeps where
  id : ModuleID
  importedByMainFile : Bool
deriving DecidableEq, Repr

/-- A `PrebuiltModuleDep`: module name and compiled-module path. -/
structure PrebuiltModuleDep where
  moduleName : String
  pcmFile : String
deriving DecidableEq, Repr

/-- Modelled from the spec: the module identity used as the
deduplication key for `ClangModuleDeps` and `AlreadySeen` is the
module's name together with its context hash.  (The handler
`FullDependencyConsumer::handleModuleDependency`, which populates the
map with this key, is declared outside this source file.) -/
def moduleIdentity (id : ModuleID) : String × String :=
  (id.moduleName, id.contextHash)

/-- The accumulated state of `FullDependencyConsumer` at finalization:
file dependencies, prebuilt module deps, the module map in insertion
order (key, record), the context hash, and the caller-supplied
already-seen identity set. -/
structure FullDepConsumerState where
  dependencies : List String
  prebuiltModuleDeps : List PrebuiltModuleDep
  clangModuleDeps : List ((String × String) × ModuleDeps)
  contextHash : String
  alreadySeen : List (String × String)

/-- The `FullDependencies` record built by `getFullDependencies`. -/
structure FullDependencies where
  contextHash : String
  commandLine : List String
  fileDeps : List String
  clangModuleDeps : List ModuleID
  prebuiltModuleDeps : List PrebuiltModuleDep
  casFileSystemRootID : Option String
deriving DecidableEq, Repr

/-- The `FullDependenciesResult` pair. -/
structure FullDependenciesResult where
  discoveredModules : List ModuleDeps
  fullDeps : FullDependencies
deriving DecidableEq, Repr

/-- `FullDependencyConsumer::getFullDependencies`: rewrite the command
line from the original minus its first argument; copy context hash and
file deps; append a `-fmodule-file=` flag per prebuilt module dep; for
each module record imported by the main file, list its id and append a
`-fmodule-file=` flag through the caller's lookup; report as discovered
the module records whose key is not in the already-seen set. -/
def getFullDependencies (c : FullDepConsumerState)
    (lookupModuleOutput : ModuleID → String)
    (originalCommandLine : List String)
    (casFileSystemRootID : Option String) : FullDependenciesResult :=
  let cmd := makeTUCommandLineWithoutPaths (originalCommandLine.drop 1)
  let cmd := cmd ++ c.prebuiltModuleDeps.map (fun pmd => "-fmodule-file=" ++ pmd.pcmFile)
  let imported := c.clangModuleDeps.filter (fun m => m.2.importedByMainFile)
  let cmd := cmd ++ imported.map (fun m => "-fmodule-file=" ++ lookupModuleOutput m.2.id)
  { discoveredModules :=
      (c.clangModuleDeps.filter (fun m => !(c.alreadySeen.contains m.1))).map (fun m => m.2)
    fullDeps :=
      { contextHash := c.contextHash
        commandLine := cmd
        fileDeps := c.dependencies
        clangModuleDeps := imported.map (fun m => m.2.id)
        prebuiltModuleDeps := c.prebuiltModuleDeps
        casFileSystemRootID := casFileSystemRootID } }

/-! ## Make-format printer (`MakeDependencyPrinterConsumer`) -/

/-- The events a `DependencyConsumer` receives.  The option record, the
module record and the prebuilt record types are parameters: this
consumer never inspects them beyond storing the options. -/
inductive DepEvent (Opts Mod Pre : Type) where
  | outputOpts (o : Opts)
  | fileDependency (f : String)
  | moduleDependency (m : Mod)
  | prebuiltModuleDependency (p : Pre)
  | contextHash (h : String)

/-- The state of `MakeDependencyPrinterConsumer`: the saved dependency
output options and the flat file-dependency list. -/
structure MakeDepPrinterState (Opts : Type) where
  opts : Option Opts
  dependencies : List String

/-- One handler dispatch: `handleDependencyOutputOpts` copies the
options, `handleFileDependency` appends the path, and the module,
prebuilt-module and context-hash handlers are no-ops. -/
def mdpHandle {Opts Mod Pre : Type} (s : MakeDepPrinterState Opts) :
    DepEvent Opts Mod Pre → MakeDepPrinterState Opts
  | .outputOpts o => { s with opts := some o }
  | .fileDependency f => { s with dependencies := s.dependencies ++ [f] }
  | .moduleDependency _ => s
  | .prebuiltModuleDependency _ => s
  | .contextHash _ => s

/-- Run the consumer from the fresh state over an event sequence. -/
def mdpRun {Opts Mod Pre : Type} (events : List (DepEvent Opts Mod Pre)) :
    MakeDepPrinterState Opts :=
  events.foldl mdpHandle ⟨none, []⟩

/-- `MakeDependencyPrinterConsumer::printDependencies`: asserts the
options were communicated (`none` result), then renders through the
external `DependencyFileGenerator`, modelled as an arbitrary function of
the options and the flat dependency list. -/
def mdpPrint {Opts : Type} (render : Opts → List String → String)
    (s : MakeDepPrinterState Opts) : Option String :=
  match s.opts with
  | none => none
  | some o => some (render o s.dependencies)

/-- The projection of an event sequence to the constructors the printer
reacts to (options and file dependencies). -/
def flatProjection {Opts Mod Pre : Type} :
    List (DepEvent Opts Mod Pre) → List (Opts ⊕ String)
  | [] => []
  | .outputOpts o :: es => .inl o :: flatProjection es
  | .fileDependency f :: es => .inr f :: flatProjection es
  | .moduleDependency _ :: es => flatProjection es
  | .prebuiltModuleDependency _ :: es => flatProjection es
  | .contextHash _ :: es => flatProjection es

/-! ## Concrete fixtures

A small concrete scan used to instantiate the theorems: a main file that
includes `A.h`, which includes `B.h`.  `sampleEnvFail` is the same
environment except that the content of `B.h` cannot be read. -/

/-- Fixture: the main file's `FileEntry`. -/
def sampleMain : FileEntryRec := ⟨"main.c", "", 10, 0⟩

/-- Fixture: header `A.h`. -/
def sampleA : FileEntryRec := ⟨"A.h", "", 11, 1⟩

/-- Fixture: header `B.h`. -/
def sampleB : FileEntryRec := ⟨"B.h", "", 12, 2⟩

/-- Fixture environment: `FileID` 0 is the main file, 1 is `A.h`, 2 is
`B.h`, 99 is the predefines buffer; every content lookup succeeds. -/
def sampleEnv : PPEnv :=
  { predefinesFID := 99
    fileInfo := fun fid =>
      if fid = 0 then ⟨0, some sampleMain, "main.c", "mainbuf"⟩
      else if fid = 1 then ⟨0, some sampleA, "A.h", "abuf"⟩
      else if fid = 2 then ⟨0, some sampleB, "B.h", "bbuf"⟩
      else ⟨0, none, "<built-in>", "predefines-buffer"⟩
    contentFor := fun p => .ok ("content-of-" ++ p)
    canon := fun p => p
    getFile := fun p => .ok ⟨p, "", 1, 7⟩ }

/-- Fixture environment in which reading `B.h` fails. -/
def sampleEnvFail : PPEnv :=
  { sampleEnv with
    contentFor := fun p =>
      if p = "B.h" then .error "missing B.h" else .ok ("content-of-" ++ p) }

/-- Fixture: the file node of the main file under `sampleEnv`. -/
def nodeMain : FileNodeObj := ⟨"main.c", "content-of-main.c"⟩

/-- Fixture: the file node of `A.h` under `sampleEnv`. -/
def nodeA : FileNodeObj := ⟨"A.h", "content-of-A.h"⟩

/-- Fixture: the file node of `B.h` under `sampleEnv`. -/
def nodeB : FileNodeObj := ⟨"B.h", "content-of-B.h"⟩

/-- Fixture: the event sequence of the spec's structural round-trip
example — `A.h` is included at byte offset 120 of the main file, `B.h`
at byte offset 40 of `A.h`, one `__has_include` probe (true) handled
while `B.h` is on top, one probe (false) while `A.h` is back on top. -/
def sampleEvents : List PPEvent :=
  [.entered 0, .entered 1, .entered 2, .hasIncludeCheck true,
   .exited 1 2 40, .hasIncludeCheck false, .exited 0 1 120]

end DepScan

namespace DepScan

/-! ## Helper lemmas -/

/-- Looking up the key just stored in the `objectForFile` map. -/
theorem lookupCache_setCache (m : List (Nat × Option FileNodeObj)) (uid : Nat)
    (v : Option FileNodeObj) : lookupCache (setCache m uid v) uid = some v := by
  induction m with
  | nil => simp [setCache, lookupCache]
  | cons kv rest ih =>
    by_cases h : kv.1 = uid
    · simp [setCache, h, lookupCache]
    · simpa [setCache, h, lookupCache] using ih

/-- `addToFileList` never touches the include stack, the predefines
memo, the seen markers, the error slot or the cache. -/
theorem addToFileList_frame (env : PPEnv) (s : ConsumerState) (fe : FileEntryRec) :
    (addToFileList env s fe).2.includeStack = s.includeStack ∧
    (addToFileList env s fe).2.predefinesBufferRef = s.predefinesBufferRef ∧
    (addToFileList env s fe).2.seenIncludeFiles = s.seenIncludeFiles ∧
    (addToFileList env s fe).2.errorToReport = s.errorToReport ∧
    (addToFileList env s fe).2.objectForFile = s.objectForFile := by
  unfold addToFileList
  cases env.contentFor fe.name with
  | error e => exact ⟨rfl, rfl, rfl, rfl, rfl⟩
  | ok c =>
    by_cases h : fe.realPathName ≠ "" ∧ fe.realPathName ≠ env.canon fe.name <;>
      simp [h]

/-- `getObjectForFile` never changes the include stack. -/
theorem getObjectForFile_stack (env : PPEnv) (s : ConsumerState) (fid : Nat)
    (r : Except String FileNodeObj) (s' : ConsumerState)
    (h : getObjectForFile env s fid = some (r, s')) :
    s'.includeStack = s.includeStack := by
  unfold getObjectForFile at h
  by_cases hfid : fid = env.predefinesFID
  · rw [if_pos hfid] at h
    cases hpre : s.predefinesBufferRef with
    | some r₀ => rw [hpre] at h; injection h with h'; cases h'; rfl
    | none =>
      rw [hpre] at h; unfold getObjectForBuffer at h
      injection h with h'
      cases h'; rfl
  · rw [if_neg hfid] at h
    cases hfe : (env.fileInfo fid).origEntry with
    | none => rw [hfe] at h; exact absurd h (by simp)
    | some fe =>
      simp only [hfe] at h
      cases hnc : getObjectForFileNonCached env s fe with
      | mk res s₁ =>
        have hstack : s₁.includeStack = s.includeStack := by
          have := (addToFileList_frame env
            { s with seenIncludeFiles := markSeen s.seenIncludeFiles fe.uid } fe).1
          unfold getObjectForFileNonCached at hnc
          rw [hnc] at this
          exact this
        rcases hcache : lookupCache s.objectForFile fe.uid with _ | v
        · simp only [hcache, hnc] at h
          cases res with
          | error e => injection h with h'; cases h'; exact hstack
          | ok r₀ => injection h with h'; cases h'; exact hstack
        · cases v with
          | none =>
            simp only [hcache, hnc] at h
            cases res with
            | error e => injection h with h'; cases h'; exact hstack
            | ok r₀ => injection h with h'; cases h'; exact hstack
          | some r₀ =>
            simp only [hcache] at h; injection h with h'; cases h'; rfl

/-! ## C3: record-first-failure policy -/

/-- C3: once a failure is recorded, every later enter/exit/probe event
is accepted but leaves the state untouched, whole event sequences are
no-ops, `getIncludeTree` returns the recorded failure instead of any
root, and a failing content resolution during `enteredInclude` records
exactly that failure. -/
theorem failure_policy :
    (∀ (env : PPEnv) (s : ConsumerState) (e : String) (ev : PPEvent),
      s.errorToReport = some e → processEvent env s ev = some s)
    ∧ (∀ (env : PPEnv) (s : ConsumerState) (e : String) (evs : List PPEvent),
      s.errorToReport = some e → runEvents env s evs = some s)
    ∧ (∀ (s : ConsumerState) (e : String),
      s.errorToReport = some e → getIncludeTree s = some (.error e))
    ∧ (∀ (env : PPEnv) (s : ConsumerState) (fid : Nat) (e : String) (s' : ConsumerState),
      s.errorToReport = none →
      getObjectForFile env s fid = some (.error e, s') →
      enteredInclude env s fid = some { s' with errorToReport := some e }) := by
  have hstep : ∀ (env : PPEnv) (s : ConsumerState) (e : String) (ev : PPEvent),
      s.errorToReport = some e → processEvent env s ev = some s := by
    intro env s e ev h
    cases ev with
    | entered fid => simp [processEvent, enteredInclude, h]
    | exited ib incl off => simp [processEvent, exitedInclude, h]
    | hasIncludeCheck b => simp [processEvent, handleHasIncludeCheck, h]
  refine ⟨hstep, ?_, ?_, ?_⟩
  · intro env s e evs h
    induction evs with
    | nil => rfl
    | cons ev evs ih => rw [runEvents, hstep env s e ev h]; exact ih
  · intro s e h
    simp [getIncludeTree, h]
  · intro env s fid e s' herr hres
    simp [enteredInclude, herr, hres]

/-- C3 witness: in the concrete failing scan, entering `B.h` records
the content failure, the rest of the events are no-ops, and
finalization surfaces the recorded failure. -/
theorem failure_policy_witness :
    processEvent sampleEnvFail
      { initConsumerState with errorToReport := some "missing B.h" }
      (.entered 2)
      = some { initConsumerState with errorToReport := some "missing B.h" }
    ∧ runEvents sampleEnvFail
      { initConsumerState with errorToReport := some "missing B.h" }
      [.hasIncludeCheck true, .exited 0 1 120, .entered 1]
      = some { initConsumerState with errorToReport := some "missing B.h" }
    ∧ getIncludeTree { initConsumerState with errorToReport := some "missing B.h" }
      = some (.error "missing B.h")
    ∧ enteredInclude sampleEnvFail
      { initConsumerState with includeStack :=
          [⟨0, nodeA, [], []⟩, ⟨0, nodeMain, [], []⟩] }
      2
      = some { initConsumerState with
          includeStack := [⟨0, nodeA, [], []⟩, ⟨0, nodeMain, [], []⟩]
          seenIncludeFiles := [2]
          objectForFile := [(2, none)]
          errorToReport := some "missing B.h" } :=
  ⟨failure_policy.1 sampleEnvFail _ "missing B.h" _ rfl,
   failure_policy.2.1 sampleEnvFail _ "missing B.h" _ rfl,
   failure_policy.2.2.1 _ "missing B.h" rfl,
   failure_policy.2.2.2 sampleEnvFail _ 2 "missing B.h"
     { initConsumerState with
        includeStack := [⟨0, nodeA, [], []⟩, ⟨0, nodeMain, [], []⟩]
        seenIncludeFiles := [2]
        objectForFile := [(2, none)] } rfl rfl⟩

/-! ## C7: per-file-identity caching makes resolution idempotent -/

/-- C7: once an on-disk file has been resolved to a file-node ref, a
later resolution of the same file returns the same ref with the state
completely unchanged — in particular no new manifest entries and no new
object-store insertions, which the first resolution alone performed. -/
theorem resolution_idempotent (env : PPEnv) (s : ConsumerState) (fid : Nat)
    (fe : FileEntryRec) (r : FileNodeObj) (s₁ : ConsumerState)
    (hfid : fid ≠ env.predefinesFID)
    (hfe : (env.fileInfo fid).origEntry = some fe)
    (hfirst : getObjectForFile env s fid = some (.ok r, s₁)) :
    getObjectForFile env s₁ fid = some (.ok r, s₁) := by
  have hhit : lookupCache s₁.objectForFile fe.uid = some (some r) := by
    unfold getObjectForFile at hfirst
    rw [if_neg hfid] at hfirst
    simp only [hfe] at hfirst
    cases hnc : getObjectForFileNonCached env s fe with
    | mk res s₂ =>
      rcases hcache : lookupCache s.objectForFile fe.uid with _ | v
      · simp only [hcache, hnc] at hfirst
        cases res with
        | error e => exact absurd hfirst (by simp)
        | ok r₀ =>
          injection hfirst with h'
          injection h' with h1 h2
          cases h2
          injection h1 with h1'
          cases h1'
          exact lookupCache_setCache _ _ _
      · cases v with
        | none =>
          simp only [hcache, hnc] at hfirst
          cases res with
          | error e => exact absurd hfirst (by simp)
          | ok r₀ =>
            injection hfirst with h'
            injection h' with h1 h2
            cases h2
            injection h1 with h1'
            cases h1'
            exact lookupCache_setCache _ _ _
        | some r₀ =>
          simp only [hcache] at hfirst
          injection hfirst with h'
          injection h' with h1 h2
          cases h2
          injection h1 with h1'
          cases h1'
          exact hcache
  unfold getObjectForFile
  rw [if_neg hfid]
  simp only [hfe, hhit]

/-- C7 witness: in the concrete scan, resolving `A.h` a second time
after its first resolution returns the same node with the state (and in
particular the manifest, which gained its entry in the first
resolution) unchanged. -/
theorem resolution_idempotent_witness :
    getObjectForFile sampleEnv
      { initConsumerState with
         seenIncludeFiles := [1]
         includedFiles := [(nodeA, 11)]
         objectForFile := [(1, some nodeA)] } 1
      = some (.ok nodeA,
        { initConsumerState with
           seenIncludeFiles := [1]
           includedFiles := [(nodeA, 11)]
           objectForFile := [(1, some nodeA)] }) :=
  resolution_idempotent sampleEnv initConsumerState 1 sampleA nodeA
    { initConsumerState with
       seenIncludeFiles := [1]
       includedFiles := [(nodeA, 11)]
       objectForFile := [(1, some nodeA)] }
    (by decide) rfl rfl

/-! ## C10: the predefines buffer -/

/-- C10: the predefines buffer is content-addressed at most once per
scan — the first request stores its bytes once, memoizes the resulting
file-node ref and changes nothing else (in particular the manifest
`includedFiles` is untouched), and every later request returns the
memoized ref with the state completely unchanged. -/
theorem predefines_memoized :
    (∀ (env : PPEnv) (s : ConsumerState) (r : FileNodeObj),
      s.predefinesBufferRef = some r →
      getObjectForFile env s env.predefinesFID = some (.ok r, s))
    ∧ (∀ (env : PPEnv) (s : ConsumerState),
      s.predefinesBufferRef = none →
      getObjectForFile env s env.predefinesFID =
        some (.ok (⟨(env.fileInfo env.predefinesFID).name,
                    (env.fileInfo env.predefinesFID).buffer⟩ : FileNodeObj),
          { s with
             predefinesBufferRef :=
               some ⟨(env.fileInfo env.predefinesFID).name,
                     (env.fileInfo env.predefinesFID).buffer⟩
             storeTrace :=
               s.storeTrace ++ [(env.fileInfo env.predefinesFID).buffer] })) := by
  constructor
  · intro env s r h
    unfold getObjectForFile
    rw [if_pos rfl, h]
  · intro env s h
    unfold getObjectForFile
    rw [if_pos rfl, h]
    rfl

/-- C10 witness: in the concrete scan the first predefines request
stores the buffer once and adds nothing to the manifest, and the second
request returns the memoized ref without any further store. -/
theorem predefines_memoized_witness :
    getObjectForFile sampleEnv initConsumerState 99
      = some (.ok ⟨"<built-in>", "predefines-buffer"⟩,
        { initConsumerState with
           predefinesBufferRef := some ⟨"<built-in>", "predefines-buffer"⟩
           storeTrace := ["predefines-buffer"] })
    ∧ getObjectForFile sampleEnv
        { initConsumerState with
           predefinesBufferRef := some ⟨"<built-in>", "predefines-buffer"⟩
           storeTrace := ["predefines-buffer"] } 99
      = some (.ok ⟨"<built-in>", "predefines-buffer"⟩,
        { initConsumerState with
           predefinesBufferRef := some ⟨"<built-in>", "predefines-buffer"⟩
           storeTrace := ["predefines-buffer"] }) :=
  ⟨predefines_memoized.2 sampleEnv initConsumerState rfl,
   predefines_memoized.1 sampleEnv
     { initConsumerState with
        predefinesBufferRef := some ⟨"<built-in>", "predefines-buffer"⟩
        storeTrace := ["predefines-buffer"] }
     ⟨"<built-in>", "predefines-buffer"⟩ rfl⟩

/-! ## C6: symlink aliases in the file manifest -/

/-- C6: when the recorded real path of a file is nonempty and differs
from the canonical absolute spelling of its name, `addToFileList`
appends two file-node entries — one for the real path, one for the
logical path — both carrying the one content ref obtained for the
file's bytes; when the two paths are equal it appends exactly one. -/
theorem file_alias_entries (env : PPEnv) (s : ConsumerState)
    (fe : FileEntryRec) (c : String)
    (hc : env.contentFor fe.name = .ok c) :
    (fe.realPathName ≠ "" → fe.realPathName ≠ env.canon fe.name →
      addToFileList env s fe = (.ok ⟨fe.name, c⟩,
        { s with includedFiles := s.includedFiles ++
            [(⟨fe.realPathName, c⟩, fe.size % 4294967296),
             (⟨fe.name, c⟩, fe.size % 4294967296)] }))
    ∧ (fe.realPathName = env.canon fe.name →
      addToFileList env s fe = (.ok ⟨fe.name, c⟩,
        { s with includedFiles := s.includedFiles ++
            [(⟨fe.name, c⟩, fe.size % 4294967296)] })) := by
  constructor
  · intro h1 h2
    unfold addToFileList
    rw [hc]
    simp only [if_pos (And.intro h1 h2)]
    simp
  · intro heq
    unfold addToFileList
    rw [hc]
    have : ¬(fe.realPathName ≠ "" ∧ fe.realPathName ≠ env.canon fe.name) := by
      rintro ⟨-, hne⟩; exact hne heq
    simp only [if_neg this]

/-- C6 witness: a file whose real path `/real/h.h` differs from the
canonical spelling of its logical name gets two manifest entries
sharing one content ref; a file whose real path equals it gets one. -/
theorem file_alias_entries_witness :
    addToFileList sampleEnv initConsumerState ⟨"h.h", "/real/h.h", 9, 8⟩
      = (.ok ⟨"h.h", "content-of-h.h"⟩,
        { initConsumerState with includedFiles :=
            [(⟨"/real/h.h", "content-of-h.h"⟩, 9),
             (⟨"h.h", "content-of-h.h"⟩, 9)] })
    ∧ addToFileList sampleEnv initConsumerState ⟨"h.h", "h.h", 9, 8⟩
      = (.ok ⟨"h.h", "content-of-h.h"⟩,
        { initConsumerState with includedFiles :=
            [(⟨"h.h", "content-of-h.h"⟩, 9)] }) :=
  ⟨(file_alias_entries sampleEnv initConsumerState ⟨"h.h", "/real/h.h", 9, 8⟩
      "content-of-h.h" rfl).1 (by decide) (by decide),
   (file_alias_entries sampleEnv initConsumerState ⟨"h.h", "h.h", 9, 8⟩
      "content-of-h.h" rfl).2 rfl⟩

/-! ## C9: the flat output ignores module events -/

/-- Replay of the flat projection: what the printer state becomes when
only the options/file events are kept. -/
def flatReplay {Opts : Type} (s : MakeDepPrinterState Opts) :
    List (Opts ⊕ String) → MakeDepPrinterState Opts
  | [] => s
  | .inl o :: es => flatReplay { s with opts := some o } es
  | .inr f :: es =>
      flatReplay { s with dependencies := s.dependencies ++ [f] } es

/-- The printer's fold is determined by the flat projection. -/
theorem foldl_mdpHandle_eq_flatReplay {Opts Mod Pre : Type}
    (events : List (DepEvent Opts Mod Pre)) :
    ∀ s : MakeDepPrinterState Opts,
      events.foldl mdpHandle s = flatReplay s (flatProjection events) := by
  induction events with
  | nil => intro s; rfl
  | cons e es ih =>
    intro s
    cases e with
    | outputOpts o => simp [flatProjection, mdpHandle, flatReplay, ih]
    | fileDependency f => simp [flatProjection, mdpHandle, flatReplay, ih]
    | moduleDependency m => simpa [flatProjection, mdpHandle] using ih s
    | prebuiltModuleDependency p => simpa [flatProjection, mdpHandle] using ih s
    | contextHash h => simpa [flatProjection, mdpHandle] using ih s

/-- C9: the rendered make-format dependency text is a function of only
the dependency-output options and the file-dependency events — two runs
whose flat projections agree produce identical text under every
renderer, whatever their module, prebuilt-module and context-hash
events are. -/
theorem flat_output_ignores_modules {Opts Mod Pre : Type}
    (e₁ e₂ : List (DepEvent Opts Mod Pre))
    (hproj : flatProjection e₁ = flatProjection e₂)
    (render : Opts → List String → String) :
    mdpPrint render (mdpRun e₁) = mdpPrint render (mdpRun e₂) := by
  unfold mdpRun
  rw [foldl_mdpHandle_eq_flatReplay, foldl_mdpHandle_eq_flatReplay, hproj]

/-- C9 witness: two concrete runs with the same options and file events
but entirely different module, prebuilt-module and context-hash events
render the same text. -/
theorem flat_output_ignores_modules_witness :
    mdpPrint (fun o ds => o ++ ": " ++ String.intercalate " " ds)
      (mdpRun ([DepEvent.outputOpts "t",
                DepEvent.fileDependency "a.h",
                DepEvent.moduleDependency "ModA",
                DepEvent.fileDependency "b.h",
                DepEvent.contextHash "h1"] : List (DepEvent String String String)))
    = mdpPrint (fun o ds => o ++ ": " ++ String.intercalate " " ds)
      (mdpRun ([DepEvent.outputOpts "t",
                DepEvent.prebuiltModuleDependency "P.pcm",
                DepEvent.fileDependency "a.h",
                DepEvent.fileDependency "b.h",
                DepEvent.contextHash "h2"] : List (DepEvent String String String))) :=
  flat_output_ignores_modules
    ([DepEvent.outputOpts "t", DepEvent.fileDependency "a.h",
      DepEvent.moduleDependency "ModA", DepEvent.fileDependency "b.h",
      DepEvent.contextHash "h1"] : List (DepEvent String String String))
    ([DepEvent.outputOpts "t", DepEvent.prebuiltModuleDependency "P.pcm",
      DepEvent.fileDependency "a.h", DepEvent.fileDependency "b.h",
      DepEvent.contextHash "h2"] : List (DepEvent String String String))
    rfl
    (fun o ds => o ++ ": " ++ String.intercalate " " ds)

/-! ## C4: module dedup at full-dependency finalization -/

/-- Filtering the module map on its keys agrees with filtering the
records on their identities when every key is its record's identity. -/
theorem filter_key_map_snd (seen : List (String × String)) :
    ∀ (l : List ((String × String) × ModuleDeps)),
      (∀ p ∈ l, p.1 = moduleIdentity p.2.id) →
      (l.filter (fun m => !(seen.contains m.1))).map Prod.snd
        = (l.map Prod.snd).filter
            (fun md => !(seen.contains (moduleIdentity md.id))) := by
  intro l
  induction l with
  | nil => intro _; rfl
  | cons p rest ih =>
    intro h
    have hp : p.1 = moduleIdentity p.2.id := h p (List.mem_cons_self p rest)
    have hrest := ih (fun q hq => h q (List.mem_cons_of_mem p hq))
    cases hc : seen.contains p.1 with
    | false =>
      have hm : p.1 ∉ seen := by simpa using hc
      have g1 : List.filter (fun m => !(seen.contains m.1)) (p :: rest)
          = p :: List.filter (fun m => !(seen.contains m.1)) rest := by
        simp [List.filter_cons, hm]
      have g2 : List.filter (fun md => !(seen.contains (moduleIdentity md.id)))
            (p.2 :: List.map Prod.snd rest)
          = p.2 :: List.filter (fun md => !(seen.contains (moduleIdentity md.id)))
              (List.map Prod.snd rest) := by
        simp [List.filter_cons, ← hp, hm]
      rw [List.map_cons, g1, g2, List.map_cons, hrest]
    | true =>
      have hm : p.1 ∈ seen := by simpa using hc
      have g1 : List.filter (fun m => !(seen.contains m.1)) (p :: rest)
          = List.filter (fun m => !(seen.contains m.1)) rest := by
        simp [List.filter_cons, hm]
      have g2 : List.filter (fun md => !(seen.contains (moduleIdentity md.id)))
            (p.2 :: List.map Prod.snd rest)
          = List.filter (fun md => !(seen.contains (moduleIdentity md.id)))
              (List.map Prod.snd rest) := by
        simp [List.filter_cons, ← hp, hm]
      rw [List.map_cons, g1, g2, hrest]

/-- C4: `getFullDependencies` reports as discovered exactly the module
records whose identity is not in the caller's already-seen set, while
the record's directly-imported module list is exactly the ids of the
records marked imported by the main file and does not depend on the
already-seen set at all. -/
theorem module_dedup (c : FullDepConsumerState)
    (lookupModuleOutput : ModuleID → String)
    (originalCommandLine : List String) (casRoot : Option String)
    (hkey : ∀ p ∈ c.clangModuleDeps, p.1 = moduleIdentity p.2.id) :
    (getFullDependencies c lookupModuleOutput originalCommandLine casRoot).discoveredModules
      = (c.clangModuleDeps.map Prod.snd).filter
          (fun md => !(c.alreadySeen.contains (moduleIdentity md.id)))
    ∧ (getFullDependencies c lookupModuleOutput originalCommandLine casRoot).fullDeps.clangModuleDeps
      = ((c.clangModuleDeps.map Prod.snd).filter
          (fun md => md.importedByMainFile)).map ModuleDeps.id
    ∧ (∀ seen' : List (String × String),
        (getFullDependencies { c with alreadySeen := seen' }
            lookupModuleOutput originalCommandLine casRoot).fullDeps.clangModuleDeps
          = (getFullDependencies c lookupModuleOutput originalCommandLine casRoot).fullDeps.clangModuleDeps) := by
  refine ⟨?_, ?_, fun _ => rfl⟩
  · exact filter_key_map_snd c.alreadySeen c.clangModuleDeps hkey
  · show (c.clangModuleDeps.filter (fun m => m.2.importedByMainFile)).map (fun m => m.2.id) = _
    rw [List.filter_map]
    simp [Function.comp_def]

/-- C4 witness: with modules `M` (already seen, imported by the main
file) and `N` (not seen, not imported), the discovered list contains
exactly `N`'s record while the directly-imported list still contains
`M`. -/
theorem module_dedup_witness :
    (getFullDependencies
        { dependencies := ["a.c"]
          prebuiltModuleDeps := []
          clangModuleDeps :=
            [(("M", "hash1"), ⟨⟨"M", "hash1"⟩, true⟩),
             (("N", "hash1"), ⟨⟨"N", "hash1"⟩, false⟩)]
          contextHash := "hash1"
          alreadySeen := [("M", "hash1")] }
        (fun id => id.moduleName ++ ".pcm") ["clang", "-c", "a.c"] none).discoveredModules
      = [⟨⟨"N", "hash1"⟩, false⟩]
    ∧ (getFullDependencies
        { dependencies := ["a.c"]
          prebuiltModuleDeps := []
          clangModuleDeps :=
            [(("M", "hash1"), ⟨⟨"M", "hash1"⟩, true⟩),
             (("N", "hash1"), ⟨⟨"N", "hash1"⟩, false⟩)]
          contextHash := "hash1"
          alreadySeen := [("M", "hash1")] }
        (fun id => id.moduleName ++ ".pcm") ["clang", "-c", "a.c"] none).fullDeps.clangModuleDeps
      = [⟨"M", "hash1"⟩] := by
  have h := module_dedup
    { dependencies := ["a.c"]
      prebuiltModuleDeps := []
      clangModuleDeps :=
        [(("M", "hash1"), ⟨⟨"M", "hash1"⟩, true⟩),
         (("N", "hash1"), ⟨⟨"N", "hash1"⟩, false⟩)]
      contextHash := "hash1"
      alreadySeen := [("M", "hash1")] }
    (fun id => id.moduleName ++ ".pcm") ["clang", "-c", "a.c"] none
    (by decide)
  exact ⟨h.1.trans (by decide), h.2.1.trans (by decide)⟩

/-! ## C2: the command-line rewrite -/

/-- `isPrefixOf` of a concatenation splits into a prefix test and a
test on the remainder. -/
theorem isPrefixOf_append_eq (p q s : List Char) :
    (p ++ q).isPrefixOf s = (p.isPrefixOf s && q.isPrefixOf (s.drop p.length)) := by
  induction p generalizing s with
  | nil => simp [List.isPrefixOf]
  | cons c p ih =>
    cases s with
    | nil => simp [List.isPrefixOf]
    | cons d s => simp [List.isPrefixOf, ih, Bool.and_assoc]

/-- A list is a prefix of itself followed by anything. -/
theorem isPrefixOf_append_self (p t : List Char) : p.isPrefixOf (p ++ t) = true := by
  induction p with
  | nil => simp [List.isPrefixOf]
  | cons c p ih => simp [List.isPrefixOf, ih]

/-- A successful prefix test yields a decomposition. -/
theorem isPrefixOf_exists (p : List Char) :
    ∀ s : List Char, p.isPrefixOf s = true → ∃ t, s = p ++ t := by
  induction p with
  | nil => exact fun s _ => ⟨s, rfl⟩
  | cons c p ih =>
    intro s h
    cases s with
    | nil => simp [List.isPrefixOf] at h
    | cons d s =>
      simp only [List.isPrefixOf, Bool.and_eq_true, beq_iff_eq] at h
      obtain ⟨t, ht⟩ := ih s h.2
      exact ⟨t, by simp [h.1, ht]⟩

/-- The `erase_if` predicate of the source is exactly the spec's list
of removed argument patterns. -/
theorem isRemovedArg_eq_specRemovedArg (arg : String) :
    isRemovedArg arg = specRemovedArg arg := by
  cases hp : ("-fmodules-".data).isPrefixOf arg.data with
  | true =>
    obtain ⟨t, ht⟩ := isPrefixOf_exists _ _ hp
    have hsplit : ∀ q : List Char,
        (("-fmodules-".data ++ q).isPrefixOf arg.data) = q.isPrefixOf t := by
      intro q
      rw [ht, isPrefixOf_append_eq, isPrefixOf_append_self,
        List.drop_left, Bool.true_and]
    have hdrop : arg.data.drop 10 = t := by
      rw [ht]; exact List.drop_left' rfl
    have hbsf : ("-fbuild-session-file=".data).isPrefixOf arg.data = false := by
      rw [ht]
      have h1 : "-fbuild-session-file=".data
          = '-' :: 'f' :: 'b' :: "uild-session-file=".data := rfl
      have h2 : "-fmodules-".data ++ t = '-' :: 'f' :: 'm' :: ("odules-".data ++ t) := rfl
      rw [h1, h2]
      simp [List.isPrefixOf]
    have hvalid : (arg == "-fmodules-validate-once-per-build-session")
        = (strDrop arg "-fmodules-".length == "validate-once-per-build-session") := by
      have hcomp : ("-fmodules-validate-once-per-build-session").data
          = "-fmodules-".data ++ "validate-once-per-build-session".data := rfl
      rw [Bool.eq_iff_iff]
      simp only [beq_iff_eq]
      constructor
      · intro he
        apply String.ext_iff.mpr
        have hea : arg.data = "-fmodules-".data ++ "validate-once-per-build-session".data := by
          rw [he]; exact hcomp
        show (strDrop arg "-fmodules-".length).data = _
        have hd : (strDrop arg "-fmodules-".length).data = arg.data.drop 10 := rfl
        rw [hd, hea]
        exact List.drop_left' rfl
      · intro he
        apply String.ext_iff.mpr
        rw [hcomp, ht]
        have hdd := String.ext_iff.mp he
        have hd : (strDrop arg "-fmodules-".length).data = arg.data.drop 10 := rfl
        rw [hd, hdrop] at hdd
        rw [hdd]
    show isRemovedArg arg = specRemovedArg arg
    unfold isRemovedArg specRemovedArg
    rw [if_pos (show strStartsWith arg "-fmodules-" = true from hp)]
    show (strStartsWith (strDrop arg "-fmodules-".length) "cache-path=" || _ || _ || _) = _
    have hrest : ∀ q : String,
        strStartsWith (strDrop arg "-fmodules-".length) q = q.data.isPrefixOf t := by
      intro q
      show q.data.isPrefixOf (arg.data.drop 10) = q.data.isPrefixOf t
      rw [hdrop]
    rw [hrest "cache-path=", hrest "prune-interval=", hrest "prune-after="]
    have c1 : strStartsWith arg "-fmodules-cache-path=" = ("cache-path=".data).isPrefixOf t := by
      show ("-fmodules-cache-path=".data).isPrefixOf arg.data = _
      rw [show "-fmodules-cache-path=".data = "-fmodules-".data ++ "cache-path=".data from rfl,
        hsplit]
    have c2 : strStartsWith arg "-fmodules-prune-interval=" = ("prune-interval=".data).isPrefixOf t := by
      show ("-fmodules-prune-interval=".data).isPrefixOf arg.data = _
      rw [show "-fmodules-prune-interval=".data = "-fmodules-".data ++ "prune-interval=".data from rfl,
        hsplit]
    have c3 : strStartsWith arg "-fmodules-prune-after=" = ("prune-after=".data).isPrefixOf t := by
      show ("-fmodules-prune-after=".data).isPrefixOf arg.data = _
      rw [show "-fmodules-prune-after=".data = "-fmodules-".data ++ "prune-after=".data from rfl,
        hsplit]
    rw [c1, c2, c3, hvalid, show strStartsWith arg "-fbuild-session-file=" = false from hbsf]
    cases ("cache-path=".data).isPrefixOf t <;>
      cases ("prune-interval=".data).isPrefixOf t <;>
        cases ("prune-after=".data).isPrefixOf t <;>
          cases strDrop arg "-fmodules-".length == "validate-once-per-build-session" <;> rfl
  | false =>
    have hnotlit : (arg == "-fmodules-validate-once-per-build-session") = false := by
      cases he : arg == "-fmodules-validate-once-per-build-session" with
      | false => rfl
      | true =>
        have harg : arg = "-fmodules-validate-once-per-build-session" := beq_iff_eq.mp he
        rw [harg] at hp
        exact absurd hp (by decide)
    have hcomp : ∀ q : List Char,
        (("-fmodules-".data ++ q).isPrefixOf arg.data) = false := by
      intro q
      rw [isPrefixOf_append_eq, hp, Bool.false_and]
    unfold isRemovedArg specRemovedArg
    rw [if_neg (show ¬strStartsWith arg "-fmodules-" = true by
      show ¬("-fmodules-".data.isPrefixOf arg.data) = true
      rw [hp]; exact Bool.false_ne_true)]
    have c1 : strStartsWith arg "-fmodules-cache-path=" = false := by
      show ("-fmodules-cache-path=".data).isPrefixOf arg.data = false
      rw [show "-fmodules-cache-path=".data = "-fmodules-".data ++ "cache-path=".data from rfl,
        hcomp]
    have c2 : strStartsWith arg "-fmodules-prune-interval=" = false := by
      show ("-fmodules-prune-interval=".data).isPrefixOf arg.data = false
      rw [show "-fmodules-prune-interval=".data = "-fmodules-".data ++ "prune-interval=".data from rfl,
        hcomp]
    have c3 : strStartsWith arg "-fmodules-prune-after=" = false := by
      show ("-fmodules-prune-after=".data).isPrefixOf arg.data = false
      rw [show "-fmodules-prune-after=".data = "-fmodules-".data ++ "prune-after=".data from rfl,
        hcomp]
    rw [c1, c2, c3, hnotlit]
    rfl

/-- The rewritten command line is the original filtered of the removed
patterns with the two disabling flags appended after the survivors. -/
theorem makeTUCommandLine_eq (args : List String) :
    makeTUCommandLineWithoutPaths args
      = args.filter (fun a => !specRemovedArg a)
        ++ ["-fno-implicit-modules", "-fno-implicit-module-maps"] := by
  unfold makeTUCommandLineWithoutPaths
  rw [List.filter_append]
  have hpt : args.filter (fun a => !isRemovedArg a)
      = args.filter (fun a => !specRemovedArg a) := by
    apply List.filter_congr
    intro a _
    rw [isRemovedArg_eq_specRemovedArg]
  rw [hpt]
  congr 1

/-- C2: in the full-dependency result the rewritten command line is the
original minus its program-name argument, minus every argument matching
the five caching-related patterns, with `-fno-implicit-modules` and
`-fno-implicit-module-maps` appended after the surviving original
arguments (followed by the `-fmodule-file=` flags); on the spec's
concrete example the result is exactly
`["-c", "a.c", "-fno-implicit-modules", "-fno-implicit-module-maps"]`. -/
theorem command_line_rewrite :
    (∀ (c : FullDepConsumerState) (lookupModuleOutput : ModuleID → String)
       (originalCommandLine : List String) (casRoot : Option String),
      (getFullDependencies c lookupModuleOutput originalCommandLine casRoot).fullDeps.commandLine
        = (originalCommandLine.drop 1).filter (fun a => !specRemovedArg a)
          ++ ["-fno-implicit-modules", "-fno-implicit-module-maps"]
          ++ c.prebuiltModuleDeps.map (fun pmd => "-fmodule-file=" ++ pmd.pcmFile)
          ++ (c.clangModuleDeps.filter (fun m => m.2.importedByMainFile)).map
              (fun m => "-fmodule-file=" ++ lookupModuleOutput m.2.id))
    ∧ (getFullDependencies ⟨[], [], [], "", []⟩ (fun _ => "")
        ["clang", "-fmodules-cache-path=/x", "-fbuild-session-file=/y", "-c", "a.c"]
        none).fullDeps.commandLine
      = ["-c", "a.c", "-fno-implicit-modules", "-fno-implicit-module-maps"] := by
  constructor
  · intro c lookupModuleOutput originalCommandLine casRoot
    show makeTUCommandLineWithoutPaths (originalCommandLine.drop 1) ++ _ ++ _ = _
    rw [makeTUCommandLine_eq]
  · decide

/-! ## C1: stack discipline and the structural round-trip -/

/-- C1: exiting an included file pops the top frame, finalizes it into
a content-addressed include-tree node and appends (node ref, byte
offset of the inclusion) to the new top frame; a `__has_include` probe
appends its result to the top frame's bit sequence; and the spec's
concrete example — `A.h` included at offset 120 of the main file,
`B.h` at offset 40 of `A.h`, a true probe while `B.h` was on top and a
false probe while `A.h` was on top — finalizes to the tree with
`root.children = [(A_ref, 120)]`, `A.children = [(B_ref, 40)]` and
probe bits `[true]` on `B`, `[false]` on `A`, `[]` on the root. -/
theorem include_stack_discipline :
    (∀ (env : PPEnv) (s : ConsumerState) (child parent : FilePPState)
       (rest : List FilePPState) (includedBy incl offset : Nat),
      s.errorToReport = none →
      s.includeStack = child :: parent :: rest →
      getObjectForFile env s incl = some (.ok child.file, s) →
      getObjectForFile env { s with includeStack := parent :: rest } includedBy
        = some (.ok parent.file, { s with includeStack := parent :: rest }) →
      exitedInclude env s includedBy incl offset
        = some { s with includeStack :=
            { parent with includes :=
                parent.includes ++ [(getCASTreeForFileIncludes child, offset)] } :: rest })
    ∧ (∀ (s : ConsumerState) (top : FilePPState) (rest : List FilePPState) (result : Bool),
      s.errorToReport = none →
      s.includeStack = top :: rest →
      handleHasIncludeCheck s result
        = some { s with includeStack :=
            { top with hasIncludeChecks := top.hasIncludeChecks ++ [result] } :: rest })
    ∧ (runEvents sampleEnv initConsumerState sampleEvents).bind getIncludeTree
        = some (.ok
            ⟨.node 0 nodeMain
                [(.node 0 nodeA [(.node 0 nodeB [] [true], 40)] [false], 120)] [],
             [(nodeMain, 10), (nodeA, 11), (nodeB, 12)], none⟩) := by
  refine ⟨?_, ?_, rfl⟩
  · intro env s child parent rest includedBy incl offset herr hstack hchild hparent
    simp only [herr] at hparent
    simp only [exitedInclude, herr, Option.isSome_none, Bool.false_eq_true, if_false,
      hchild, hstack, eq_self_iff_true, if_true, hparent]
  · intro s top rest result herr hstack
    simp only [handleHasIncludeCheck, herr, Option.isSome_none, Bool.false_eq_true,
      if_false, hstack]

/-- C1 witness: the general pop-and-append and probe-append steps
instantiated on the concrete scan, with frames for `A.h` on top of the
main file and all resolutions hitting the per-file cache. -/
theorem include_stack_discipline_witness :
    exitedInclude sampleEnv
      { initConsumerState with
         includeStack := [⟨0, nodeA, [], [true]⟩, ⟨0, nodeMain, [], []⟩]
         objectForFile := [(0, some nodeMain), (1, some nodeA)] }
      0 1 120
      = some { initConsumerState with
         includeStack := [⟨0, nodeMain, [(.node 0 nodeA [] [true], 120)], []⟩]
         objectForFile := [(0, some nodeMain), (1, some nodeA)] }
    ∧ handleHasIncludeCheck
      { initConsumerState with
         includeStack := [⟨0, nodeA, [], []⟩, ⟨0, nodeMain, [], []⟩] }
      true
      = some { initConsumerState with
         includeStack := [⟨0, nodeA, [], [true]⟩, ⟨0, nodeMain, [], []⟩] } :=
  ⟨include_stack_discipline.1 sampleEnv
      { initConsumerState with
         includeStack := [⟨0, nodeA, [], [true]⟩, ⟨0, nodeMain, [], []⟩]
         objectForFile := [(0, some nodeMain), (1, some nodeA)] }
      ⟨0, nodeA, [], [true]⟩ ⟨0, nodeMain, [], []⟩ [] 0 1 120 rfl rfl rfl rfl,
   include_stack_discipline.2.1
      { initConsumerState with
         includeStack := [⟨0, nodeA, [], []⟩, ⟨0, nodeMain, [], []⟩] }
      ⟨0, nodeA, [], []⟩ [⟨0, nodeMain, [], []⟩] true rfl rfl⟩

/-! ## C8: invalid call sequences -/

/-- C8 counterexample: after a recorded mid-scan failure the include
stack still holds two open frames, yet invoking finalization does not
hit any assertion — it returns the recorded failure as a recoverable
error.  So an invalid call sequence (finalization with more than one
frame open) is not unconditionally rejected by an assertion. -/
theorem invalid_sequence_assertions_counterexample :
    ((runEvents sampleEnvFail initConsumerState
        [.entered 0, .entered 1, .entered 2]).map
      (fun s => s.includeStack.length)) = some 2
    ∧ ((runEvents sampleEnvFail initConsumerState
        [.entered 0, .entered 1, .entered 2]).bind getIncludeTree)
      = some (.error "missing B.h") :=
  ⟨rfl, rfl⟩

/-- C8 (amended): when no failure has been recorded, every invalid call
sequence — a probe or exit with no open frame, an exit whose child
identity does not match the top frame, an exit whose parent identity
does not match the frame below, an exit of the root frame with no
parent left, and finalization with any number of open frames other than
one — is rejected by a non-recoverable assertion (a hard `none` stop),
never recorded as a recoverable error. -/
theorem invalid_sequence_assertions :
    (∀ (s : ConsumerState) (result : Bool),
      s.errorToReport = none → s.includeStack = [] →
      handleHasIncludeCheck s result = none)
    ∧ (∀ (env : PPEnv) (s : ConsumerState) (includedBy incl offset : Nat),
      s.errorToReport = none → s.includeStack = [] →
      exitedInclude env s includedBy incl offset = none)
    ∧ (∀ (env : PPEnv) (s : ConsumerState) (top : FilePPState)
        (rest : List FilePPState) (includedBy incl offset : Nat)
        (ref : FileNodeObj) (s₁ : ConsumerState),
      s.errorToReport = none → s.includeStack = top :: rest →
      getObjectForFile env s incl = some (.ok ref, s₁) →
      ref ≠ top.file →
      exitedInclude env s includedBy incl offset = none)
    ∧ (∀ (env : PPEnv) (s : ConsumerState) (child parent : FilePPState)
        (rest : List FilePPState) (includedBy incl offset : Nat) (ref' : FileNodeObj),
      s.errorToReport = none → s.includeStack = child :: parent :: rest →
      getObjectForFile env s incl = some (.ok child.file, s) →
      getObjectForFile env { s with includeStack := parent :: rest } includedBy
        = some (.ok ref', { s with includeStack := parent :: rest }) →
      ref' ≠ parent.file →
      exitedInclude env s includedBy incl offset = none)
    ∧ (∀ (env : PPEnv) (s : ConsumerState) (c : FilePPState)
        (includedBy incl offset : Nat),
      s.errorToReport = none → s.includeStack = [c] →
      exitedInclude env s includedBy incl offset = none)
    ∧ (∀ s : ConsumerState,
      s.errorToReport = none → s.includeStack.length ≠ 1 →
      getIncludeTree s = none) := by
  refine ⟨?_, ?_, ?_, ?_, ?_, ?_⟩
  · intro s result herr hstack
    simp only [handleHasIncludeCheck, herr, Option.isSome_none, Bool.false_eq_true,
      if_false, hstack]
  · intro env s includedBy incl offset herr hstack
    simp only [exitedInclude, herr, Option.isSome_none, Bool.false_eq_true, if_false]
    cases hres : getObjectForFile env s incl with
    | none => simp only [hres]
    | some rs =>
      obtain ⟨res, s₁⟩ := rs
      have hs₁ := getObjectForFile_stack env s incl res s₁ hres
      cases res with
      | error e => simp only [hres]
      | ok ref => simp only [hres]; rw [hs₁, hstack]
  · intro env s top rest includedBy incl offset ref s₁ herr hstack hres hne
    simp only [exitedInclude, herr, Option.isSome_none, Bool.false_eq_true, if_false,
      hres]
    have hs₁ := getObjectForFile_stack env s incl (.ok ref) s₁ hres
    rw [hs₁, hstack]
    simp only [if_neg hne]
  · intro env s child parent rest includedBy incl offset ref' herr hstack hchild hparent hne
    simp only [herr] at hparent
    simp only [exitedInclude, herr, Option.isSome_none, Bool.false_eq_true, if_false,
      hchild, hstack, eq_self_iff_true, if_true, hparent, if_neg hne]
  · intro env s c includedBy incl offset herr hstack
    simp only [exitedInclude, herr, Option.isSome_none, Bool.false_eq_true, if_false]
    cases hres : getObjectForFile env s incl with
    | none => simp only [hres]
    | some rs =>
      obtain ⟨res, s₁⟩ := rs
      have hs₁ := getObjectForFile_stack env s incl res s₁ hres
      cases res with
      | error e => simp only [hres]
      | ok ref =>
        simp only [hres, hs₁, hstack]
        by_cases heq : ref = c.file
        · simp only [if_pos heq]
          cases hres2 : getObjectForFile env { s₁ with includeStack := [] } includedBy with
          | none => simp only [hres2]
          | some rs2 =>
            obtain ⟨res2, s₃⟩ := rs2
            have hs₃ := getObjectForFile_stack env _ includedBy res2 s₃ hres2
            cases res2 with
            | error e => simp only [hres2]
            | ok ref2 =>
              simp only [hres2]
              rw [show s₃.includeStack = [] from hs₃]
        · simp only [if_neg heq]
  · intro s herr hlen
    simp only [getIncludeTree, herr]
    cases hstack : s.includeStack with
    | nil => rfl
    | cons a rest =>
      cases rest with
      | nil => exact absurd (by rw [hstack]; rfl : s.includeStack.length = 1) hlen
      | cons b rest2 => rfl

/-- C8 witness: each invalid call sequence instantiated concretely on
the sample scan: a probe and an exit with no open frame, an exit whose
entered file does not match the top frame, an exit whose includer does
not match the frame below, an exit of the root frame, and finalization
with zero open frames — all hit the modelled assertion. -/
theorem invalid_sequence_assertions_witness :
    handleHasIncludeCheck initConsumerState true = none
    ∧ exitedInclude sampleEnv initConsumerState 0 1 120 = none
    ∧ exitedInclude sampleEnv
        { initConsumerState with
           includeStack := [⟨0, nodeB, [], []⟩]
           objectForFile := [(1, some nodeA)] } 0 1 120 = none
    ∧ exitedInclude sampleEnv
        { initConsumerState with
           includeStack := [⟨0, nodeA, [], []⟩, ⟨0, nodeB, [], []⟩]
           objectForFile := [(0, some nodeMain), (1, some nodeA)] } 0 1 120 = none
    ∧ exitedInclude sampleEnv
        { initConsumerState with
           includeStack := [⟨0, nodeMain, [], []⟩]
           objectForFile := [(0, some nodeMain)] } 0 0 5 = none
    ∧ getIncludeTree initConsumerState = none :=
  ⟨invalid_sequence_assertions.1 initConsumerState true rfl rfl,
   invalid_sequence_assertions.2.1 sampleEnv initConsumerState 0 1 120 rfl rfl,
   invalid_sequence_assertions.2.2.1 sampleEnv
     { initConsumerState with
        includeStack := [⟨0, nodeB, [], []⟩]
        objectForFile := [(1, some nodeA)] }
     ⟨0, nodeB, [], []⟩ [] 0 1 120 nodeA
     { initConsumerState with
        includeStack := [⟨0, nodeB, [], []⟩]
        objectForFile := [(1, some nodeA)] }
     rfl rfl rfl (by decide),
   invalid_sequence_assertions.2.2.2.1 sampleEnv
     { initConsumerState with
        includeStack := [⟨0, nodeA, [], []⟩, ⟨0, nodeB, [], []⟩]
        objectForFile := [(0, some nodeMain), (1, some nodeA)] }
     ⟨0, nodeA, [], []⟩ ⟨0, nodeB, [], []⟩ [] 0 1 120 nodeMain
     rfl rfl rfl rfl (by decide),
   invalid_sequence_assertions.2.2.2.2.1 sampleEnv
     { initConsumerState with
        includeStack := [⟨0, nodeMain, [], []⟩]
        objectForFile := [(0, some nodeMain)] }
     ⟨0, nodeMain, [], []⟩ 0 0 5 rfl rfl,
   invalid_sequence_assertions.2.2.2.2.2 initConsumerState rfl (by decide)⟩

/-! ## C5: the PCH sweep is deterministic -/

/-- A successful `addToFileList` appends exactly its manifest entries. -/
theorem addToFileList_ok (env : PPEnv) (s : ConsumerState) (fe : FileEntryRec)
    (c : String) (hc : env.contentFor fe.name = .ok c) :
    addToFileList env s fe = (.ok ⟨fe.name, c⟩,
      { s with includedFiles := s.includedFiles ++ addToFileListEntries env fe c }) := by
  unfold addToFileList addToFileListEntries
  rw [hc]
  by_cases h : fe.realPathName ≠ "" ∧ fe.realPathName ≠ env.canon fe.name
  · simp [h]
  · simp [h]

/-- A sweep over files whose contents all resolve appends, in order,
each file's manifest entries. -/
theorem pchSweep_ok (env : PPEnv) (content : FileEntryRec → String) :
    ∀ (files : List FileEntryRec) (s : ConsumerState),
      (∀ fe ∈ files, env.contentFor fe.name = .ok (content fe)) →
      pchSweep env files s
        = (true, { s with includedFiles := s.includedFiles ++
            (files.flatMap (fun fe => addToFileListEntries env fe (content fe))) }) := by
  intro files
  induction files with
  | nil => intro s _; simp [pchSweep]
  | cons fe fes ih =>
    intro s h
    have hfe := h fe (List.mem_cons_self fe fes)
    have hrest := fun q hq => h q (List.mem_cons_of_mem fe hq)
    unfold pchSweep
    rw [addToFileList_ok env s fe (content fe) hfe]
    show pchSweep env fes
      { s with includedFiles := s.includedFiles ++ addToFileListEntries env fe (content fe) }
      = _
    rw [ih _ hrest]
    simp [List.append_assoc]

/-- Ordered insertion produces a permutation of the consed list. -/
theorem insertByUID_perm (fe : FileEntryRec) (l : List FileEntryRec) :
    (insertByUID fe l).Perm (fe :: l) := by
  induction l with
  | nil => exact List.Perm.refl _
  | cons x xs ih =>
    unfold insertByUID
    by_cases h : fe.uid ≤ x.uid
    · rw [if_pos h]
    · rw [if_neg h]
      exact (ih.cons x).trans (List.Perm.swap fe x xs)

/-- The UID sort produces a permutation of its input. -/
theorem sortByUID_perm (l : List FileEntryRec) : (sortByUID l).Perm l := by
  induction l with
  | nil => exact List.Perm.refl _
  | cons x xs ih =>
    exact (insertByUID_perm x (sortByUID xs)).trans (ih.cons x)

/-- Ordered insertion preserves sortedness by UID. -/
theorem insertByUID_sorted (fe : FileEntryRec) (l : List FileEntryRec)
    (h : l.Pairwise (fun a b => a.uid ≤ b.uid)) :
    (insertByUID fe l).Pairwise (fun a b => a.uid ≤ b.uid) := by
  induction l with
  | nil => simp [insertByUID]
  | cons x xs ih =>
    rw [List.pairwise_cons] at h
    unfold insertByUID
    by_cases hle : fe.uid ≤ x.uid
    · rw [if_pos hle]
      refine List.Pairwise.cons ?_ (List.Pairwise.cons h.1 h.2)
      intro b hb
      rcases List.mem_cons.mp hb with rfl | hb'
      · exact hle
      · exact le_trans hle (h.1 b hb')
    · rw [if_neg hle]
      refine List.Pairwise.cons ?_ (ih h.2)
      intro b hb
      rcases List.mem_cons.mp ((insertByUID_perm fe xs).mem_iff.mp hb) with rfl | hb'
      · exact le_of_not_le hle
      · exact h.1 b hb'

/-- The UID sort produces a UID-sorted list. -/
theorem sortByUID_sorted (l : List FileEntryRec) :
    (sortByUID l).Pairwise (fun a b => a.uid ≤ b.uid) := by
  induction l with
  | nil => exact List.Pairwise.nil
  | cons x xs ih => exact insertByUID_sorted x (sortByUID xs) ih

/-- With pairwise-distinct UIDs the sorted order is unique: sorting two
permutations of the same files gives identical lists. -/
theorem sortByUID_eq_of_perm (l₁ l₂ : List FileEntryRec)
    (hp : l₁.Perm l₂) (hnd : (l₁.map FileEntryRec.uid).Nodup) :
    sortByUID l₁ = sortByUID l₂ := by
  have h₁ : (sortByUID l₁).Perm l₁ := sortByUID_perm l₁
  have h₂ : (sortByUID l₂).Perm l₂ := sortByUID_perm l₂
  have hperm : (sortByUID l₁).Perm (sortByUID l₂) := h₁.trans (hp.trans h₂.symm)
  have hnd₁ : ((sortByUID l₁).map FileEntryRec.uid).Nodup :=
    ((h₁.map FileEntryRec.uid).nodup_iff).mpr hnd
  have hnd₂ : ((sortByUID l₂).map FileEntryRec.uid).Nodup :=
    ((h₂.map FileEntryRec.uid).nodup_iff).mpr (((hp.map FileEntryRec.uid).nodup_iff).mp hnd)
  have hne₁ : (sortByUID l₁).Pairwise (fun a b => a.uid ≠ b.uid) :=
    List.pairwise_map.mp hnd₁
  have hne₂ : (sortByUID l₂).Pairwise (fun a b => a.uid ≠ b.uid) :=
    List.pairwise_map.mp hnd₂
  have hlt₁ : List.Sorted (fun a b : FileEntryRec => a.uid < b.uid) (sortByUID l₁) :=
    ((sortByUID_sorted l₁).and hne₁).imp (fun h => lt_of_le_of_ne h.1 h.2)
  have hlt₂ : List.Sorted (fun a b : FileEntryRec => a.uid < b.uid) (sortByUID l₂) :=
    ((sortByUID_sorted l₂).and hne₂).imp (fun h => lt_of_le_of_ne h.1 h.2)
  haveI : IsAntisymm FileEntryRec (fun a b => a.uid < b.uid) :=
    ⟨fun a b h1 h2 => absurd h1 (Nat.lt_asymm h2)⟩
  exact List.eq_of_perm_of_sorted hperm hlt₁ hlt₂


/-- When the no-sanitize pass fails, `finalize` stops there. -/
theorem finalize_eq_of_sanitize_err (env : PPEnv) (ci : CompilerInstanceRec)
    (s s₁ : ConsumerState)
    (h : addSanitizeFiles env ci.noSanitizeFiles s = (false, s₁)) :
    finalize env ci s = s₁ := by
  unfold finalize
  rw [h]

/-- When the no-sanitize pass succeeds, `finalize` continues with the
sysroot step and the PCH sweep. -/
theorem finalize_eq_of_sanitize_ok (env : PPEnv) (ci : CompilerInstanceRec)
    (s s₁ : ConsumerState)
    (h : addSanitizeFiles env ci.noSanitizeFiles s = (true, s₁)) :
    finalize env ci s
      = finalizePCH env ci.implicitPCHInclude ci.includedFiles
          (if ci.sysroot = "" then s₁
           else (finalizeAddFile env s₁ (ci.sysroot ++ "/SDKSettings.json") true).2) := by
  unfold finalize
  rw [h]

/-- The PCH sweep depends on the included-files enumeration only
through the sorted not-seen sublist. -/
theorem finalizePCH_congr (env : PPEnv) (pch : String)
    (l₁ l₂ : List FileEntryRec) (s₂ : ConsumerState)
    (hperm : l₁.Perm l₂) (hnd : (l₁.map FileEntryRec.uid).Nodup) :
    finalizePCH env pch l₁ s₂ = finalizePCH env pch l₂ s₂ := by
  have hs : sortByUID (l₁.filter (fun fe => !(s₂.seenIncludeFiles.contains fe.uid)))
      = sortByUID (l₂.filter (fun fe => !(s₂.seenIncludeFiles.contains fe.uid))) :=
    sortByUID_eq_of_perm _ _ (hperm.filter _)
      (hnd.sublist ((List.filter_sublist l₁).map FileEntryRec.uid))
  simp only [finalizePCH, hs]

/-- With an implicit PCH configured and all swept contents resolving,
the PCH sweep appends exactly the sorted not-seen files' entries. -/
theorem finalizePCH_includedFiles (env : PPEnv) (pch : String)
    (l : List FileEntryRec) (s₂ : ConsumerState) (content : FileEntryRec → String)
    (hpch : pch ≠ "")
    (hmem : ∀ fe ∈ sortByUID (l.filter
        (fun fe => !(s₂.seenIncludeFiles.contains fe.uid))),
      env.contentFor fe.name = .ok (content fe)) :
    (finalizePCH env pch l s₂).includedFiles
      = s₂.includedFiles ++
        (sortByUID (l.filter (fun fe => !(s₂.seenIncludeFiles.contains fe.uid)))).flatMap
          (fun fe => addToFileListEntries env fe (content fe)) := by
  have hsw := pchSweep_ok env content
    (sortByUID (l.filter (fun fe => !(s₂.seenIncludeFiles.contains fe.uid)))) s₂ hmem
  simp only [finalizePCH, if_neg hpch, hsw]
  cases env.contentFor pch <;> rfl

/-- C5: (determinism) with an implicit PCH configured, `finalize`'s
result is invariant under reordering of the front end's included-files
enumeration, because the not-seen extras are visited in ascending order
of their stable UID rather than first-seen order; and (structure) every
recorded included file whose UID was never marked seen is added to the
manifest during finalization, in ascending UID order. -/
theorem pch_sweep_deterministic :
    (∀ (env : PPEnv) (s : ConsumerState) (ci₁ ci₂ : CompilerInstanceRec),
      ci₁.noSanitizeFiles = ci₂.noSanitizeFiles →
      ci₁.sysroot = ci₂.sysroot →
      ci₁.implicitPCHInclude = ci₂.implicitPCHInclude →
      ci₁.includedFiles.Perm ci₂.includedFiles →
      (ci₁.includedFiles.map FileEntryRec.uid).Nodup →
      finalize env ci₁ s = finalize env ci₂ s)
    ∧ (∀ (env : PPEnv) (ci : CompilerInstanceRec) (s : ConsumerState)
        (content : FileEntryRec → String),
      ci.noSanitizeFiles = [] → ci.sysroot = "" → ci.implicitPCHInclude ≠ "" →
      (∀ fe ∈ ci.includedFiles, env.contentFor fe.name = .ok (content fe)) →
      (finalize env ci s).includedFiles
        = s.includedFiles ++
          (sortByUID (ci.includedFiles.filter
            (fun fe => !(s.seenIncludeFiles.contains fe.uid)))).flatMap
              (fun fe => addToFileListEntries env fe (content fe))) := by
  constructor
  · intro env s ci₁ ci₂ hn hsy hpch hperm hnd
    cases haddsan : addSanitizeFiles env ci₁.noSanitizeFiles s with
    | mk ok s₁ =>
      cases ok
      · rw [finalize_eq_of_sanitize_err env ci₁ s s₁ haddsan,
          finalize_eq_of_sanitize_err env ci₂ s s₁ (by rw [← hn]; exact haddsan)]
      · rw [finalize_eq_of_sanitize_ok env ci₁ s s₁ haddsan,
          finalize_eq_of_sanitize_ok env ci₂ s s₁ (by rw [← hn]; exact haddsan),
          hpch, hsy]
        exact finalizePCH_congr env ci₂.implicitPCHInclude _ _ _ hperm hnd
  · intro env ci s content hn hsy hpch hok
    have haddsan : addSanitizeFiles env ci.noSanitizeFiles s = (true, s) := by
      rw [hn]; rfl
    have hmem : ∀ fe ∈ sortByUID (ci.includedFiles.filter
        (fun fe => !(s.seenIncludeFiles.contains fe.uid))),
        env.contentFor fe.name = .ok (content fe) :=
      fun fe hfe => hok fe (List.mem_of_mem_filter ((sortByUID_perm _).mem_iff.mp hfe))
    rw [finalize_eq_of_sanitize_ok env ci s s haddsan, hsy, if_pos rfl]
    exact finalizePCH_includedFiles env ci.implicitPCHInclude ci.includedFiles s
      content hpch hmem

/-- C5 witness: on the concrete scan, finalizing with the PCH-recorded
files enumerated in two different orders yields identical states, and
the not-seen files land in the manifest in ascending UID order. -/
theorem pch_sweep_deterministic_witness :
    finalize sampleEnv
      ⟨[], "", "pch.h", [⟨"z.h", "", 1, 5⟩, ⟨"y.h", "", 1, 3⟩, ⟨"x.h", "", 1, 4⟩]⟩
      initConsumerState
      = finalize sampleEnv
        ⟨[], "", "pch.h", [⟨"x.h", "", 1, 4⟩, ⟨"z.h", "", 1, 5⟩, ⟨"y.h", "", 1, 3⟩]⟩
        initConsumerState
    ∧ (finalize sampleEnv
        ⟨[], "", "pch.h", [⟨"z.h", "", 1, 5⟩, ⟨"y.h", "", 1, 3⟩, ⟨"x.h", "", 1, 4⟩]⟩
        initConsumerState).includedFiles
      = initConsumerState.includedFiles ++
          (sortByUID ([⟨"z.h", "", 1, 5⟩, ⟨"y.h", "", 1, 3⟩, ⟨"x.h", "", 1, 4⟩].filter
            (fun fe => !(initConsumerState.seenIncludeFiles.contains fe.uid)))).flatMap
              (fun fe => addToFileListEntries sampleEnv fe ("content-of-" ++ fe.name)) :=
  ⟨pch_sweep_deterministic.1 sampleEnv initConsumerState
     ⟨[], "", "pch.h", [⟨"z.h", "", 1, 5⟩, ⟨"y.h", "", 1, 3⟩, ⟨"x.h", "", 1, 4⟩]⟩
     ⟨[], "", "pch.h", [⟨"x.h", "", 1, 4⟩, ⟨"z.h", "", 1, 5⟩, ⟨"y.h", "", 1, 3⟩]⟩
     rfl rfl rfl (by decide) (by decide),
   pch_sweep_deterministic.2 sampleEnv
     ⟨[], "", "pch.h", [⟨"z.h", "", 1, 5⟩, ⟨"y.h", "", 1, 3⟩, ⟨"x.h", "", 1, 4⟩]⟩
     initConsumerState (fun fe => "content-of-" ++ fe.name)
     rfl rfl (by decide) (by intro fe hfe; fin_cases hfe <;> rfl)⟩

end DepScan
